import Mathlib

/-!
Verification of `fetch_all_env_processing_times_exceptretry.py`, a single
linear script that

1. loads SAP credentials for three environments (DEV, UAT, PROD) plus one
   destination (iFlow) endpoint from environment variables and aborts when
   any is missing or empty;
2. computes a rolling 24-hour UTC window;
3. per environment, pages through `MessageProcessingLogs` following the
   OData `__next` link, accumulating all result pages;
4. parses the vendor `/Date(<ms>)/` tokens, computes `DurationMs`,
   dropping records whose tokens fail to parse;
5. keeps, per integration-flow name, the record with maximal duration
   among non-`RETRY` records (strict `>`, so the earliest record wins
   ties), sorts the per-flow maxima descending by duration and takes 5;
6. assembles the consolidated report and POSTs it.

The embedding below models each of these steps from the Python source.
Strings model Python strings; machine integers are `Int`/`Nat` (Python
integers are unbounded, so no wrap-around modelling is required).
Timestamps are modelled as microseconds since the epoch (`datetime.utcnow`
has microsecond resolution); `strftime("%Y-%m-%dT%H:%M:%S")` truncates to
whole seconds, modelled as division by 10^6.  The textual rendering of a
timestamp inside a URL and the percent-encoding of the filter (`quote`)
are abstracted: URLs act only as request keys handed to the HTTP layer,
and no claim depends on their spelling.
-/

/-- A raw record as returned by the upstream API after `$select`
(`IntegrationFlowName,LogStart,LogEnd,MessageGuid,Status`). -/
structure RawRecord where
  IntegrationFlowName : String
  LogStart : String
  LogEnd : String
  MessageGuid : String
  Status : String
deriving DecidableEq, Repr

/-- A derived record as built in the `duration_records` loop. -/
structure DurationRecord where
  IntegrationFlowName : String
  MessageGuid : String
  Status : String
  DurationMs : Int
  LogStart : Int
  LogEnd : Int
deriving DecidableEq, Repr

/-- Digits of a leading run, as `re`'s `\d+` would capture them:
`span isDigit`. -/
def digitSpan (cs : List Char) : List Char × List Char :=
  (cs.takeWhile Char.isDigit, cs.dropWhile Char.isDigit)

/-- Value of a digit string read in base 10 (`int(...)` on the capture). -/
def digitsToNat (ds : List Char) : Nat :=
  ds.foldl (fun acc c => acc * 10 + (c.toNat - 48)) 0

/-- Attempt to match the regex `/Date\((\d+)\)/` at the very start of the
character list: the literal `/Date(`, then one or more digits (greedy),
then the literal `)/`. -/
def matchDateAt (cs : List Char) : Option Nat :=
  if "/Date(".toList.isPrefixOf cs then
    let rest := cs.drop 6
    let ds := (digitSpan rest).1
    let after := (digitSpan rest).2
    if ds ≠ [] ∧ ")/".toList.isPrefixOf after then
      some (digitsToNat ds)
    else
      none
  else
    none

/-- `re.search`: try the match at each successive start position, return
the first success. -/
def searchDate : List Char → Option Nat
  | [] => none
  | c :: cs =>
    match matchDateAt (c :: cs) with
    | some n => some n
    | none => searchDate cs

/-- `parse_log_date(date_str)`: extract the epoch-millisecond integer from
the vendor token `/Date(<ms>)/`, or `None` when the pattern is absent. -/
def parse_log_date (date_str : String) : Option Int :=
  (searchDate date_str.data).map Int.ofNat

/-- One iteration of the `duration_records` loop body: `None` when either
timestamp fails to parse (the `continue` branch), otherwise the derived
record with `DurationMs = end_ms - start_ms`. -/
def mkDurationRecord (entry : RawRecord) : Option DurationRecord :=
  match parse_log_date entry.LogStart, parse_log_date entry.LogEnd with
  | some start_ms, some end_ms =>
    some { IntegrationFlowName := entry.IntegrationFlowName
           MessageGuid := entry.MessageGuid
           Status := entry.Status
           DurationMs := end_ms - start_ms
           LogStart := start_ms
           LogEnd := end_ms }
  | _, _ => none

/-- The `duration_records` list built from `all_results`. -/
def duration_records (all_results : List RawRecord) : List DurationRecord :=
  all_results.filterMap mkDurationRecord

/-- Association-list lookup with propositional string equality (a Python
`dict` read `m[name]` / `name in m`). -/
def lookupKey (name : String) : List (String × DurationRecord) → Option DurationRecord
  | [] => none
  | (k, v) :: rest => if k = name then some v else lookupKey name rest

/-- Write `m[name] = v` on the insertion-ordered association list that
models the Python `dict`: an existing key keeps its position, a new key is
appended. -/
def updateAssoc (m : List (String × DurationRecord)) (name : String)
    (v : DurationRecord) : List (String × DurationRecord) :=
  match m with
  | [] => [(name, v)]
  | (k, w) :: rest =>
    if k = name then (k, v) :: rest else (k, w) :: updateAssoc rest name v

/-- Body of the `max_durations` loop for one record: skip `RETRY`
records; otherwise store the record when its flow name is new or its
duration strictly exceeds the stored one. -/
def maxDurStep (m : List (String × DurationRecord)) (record : DurationRecord) :
    List (String × DurationRecord) :=
  if record.Status = "RETRY" then m
  else
    match lookupKey record.IntegrationFlowName m with
    | none => updateAssoc m record.IntegrationFlowName record
    | some cur =>
      if record.DurationMs > cur.DurationMs then
        updateAssoc m record.IntegrationFlowName record
      else m

/-- The `max_durations` dict after the whole loop, as an insertion-ordered
association list. -/
def max_durations (recs : List DurationRecord) : List (String × DurationRecord) :=
  recs.foldl maxDurStep []

/-- The descending-duration order used by
`sorted(..., key=lambda x: x["DurationMs"], reverse=True)`:
`a` may precede `b` when `b.DurationMs ≤ a.DurationMs`. -/
def descDur (a b : DurationRecord) : Prop := b.DurationMs ≤ a.DurationMs

instance : DecidableRel descDur := fun a b => Int.decLe b.DurationMs a.DurationMs

instance : IsTotal DurationRecord descDur :=
  ⟨fun a b => Int.le_total b.DurationMs a.DurationMs⟩

instance : IsTrans DurationRecord descDur :=
  ⟨fun _ _ _ hab hbc => le_trans hbc hab⟩

/-- `sorted(..., key=lambda x: x["DurationMs"], reverse=True)`: CPython's
`sorted` is a stable sort, and with `reverse=True` it orders by descending
key while equal keys keep their original relative order; modelled by the
stable insertion sort under `descDur`. -/
def sortDescByDuration (l : List DurationRecord) : List DurationRecord :=
  List.insertionSort descDur l

/-- `top_5 = sorted(max_durations.values(), key=..., reverse=True)[:5]`. -/
def top_5 (recs : List DurationRecord) : List DurationRecord :=
  (sortDescByDuration ((max_durations recs).map Prod.snd)).take 5

/-- The per-environment ranking computed from the raw fetched records:
`duration_records` then `top_5`. -/
def env_top5 (all_results : List RawRecord) : List DurationRecord :=
  top_5 (duration_records all_results)

/-! ## Configuration loading and validation -/

/-- Python truthiness of an `os.getenv` result as tested by `all(...)`:
`None` (variable absent) and `""` (variable empty) are falsy. -/
def truthy : Option String → Bool
  | none => false
  | some s => !s.isEmpty

/-- `required_envs`: the iFlow destination triple followed by each
environment's values in dict order (DEV, UAT, PROD; username, password,
base URL). `getenv` models `os.getenv`. -/
def required_envs (getenv : String → Option String) : List (Option String) :=
  [getenv "IFLOW_URL", getenv "IFLOW_USERNAME", getenv "IFLOW_PASSWORD",
   getenv "DEV_SAP_USERNAME", getenv "DEV_SAP_PASSWORD", getenv "DEV_SAP_BASE_URL",
   getenv "UAT_SAP_USERNAME", getenv "UAT_SAP_PASSWORD", getenv "UAT_SAP_BASE_URL",
   getenv "PROD_SAP_USERNAME", getenv "PROD_SAP_PASSWORD", getenv "PROD_SAP_BASE_URL"]

/-- The `if not all(required_envs)` guard: `true` exactly when every
required variable is present and non-empty. -/
def config_ok (getenv : String → Option String) : Bool :=
  (required_envs getenv).all truthy

/-! ## Time window

`end_time = datetime.utcnow()`, `start_time = end_time - timedelta(days=1)`,
both rendered by `strftime("%Y-%m-%dT%H:%M:%S")`.  A UTC instant is
modelled as microseconds since the epoch (`Nat`); `strftime` truncates the
microsecond part, i.e. divides by 10^6. -/

/-- Microseconds in 24 hours (`timedelta(days=1)`). -/
def dayUs : Nat := 86400000000

/-- The whole-second value printed by `strftime("%Y-%m-%dT%H:%M:%S")` for
an instant given in epoch microseconds. -/
def strftimeSec (t_us : Nat) : Nat := t_us / 1000000

/-- `end_str`'s timestamp value, in epoch seconds. -/
def end_sec (now_us : Nat) : Nat := strftimeSec now_us

/-- `start_str`'s timestamp value, in epoch seconds:
`end_time - timedelta(days=1)`, truncated by `strftime`. -/
def start_sec (now_us : Nat) : Nat := strftimeSec (now_us - dayUs)

/-! ## Upstream fetch with pagination -/

/-- One upstream HTTP response: `success` is a 200 carrying
`d.results` and the optional `d.__next` link; `failure` is any other
status (`status_code`, body text). -/
inductive PageResponse where
  | success (results : List RawRecord) (nextLink : Option String)
  | failure (statusCode : Nat) (body : String)
deriving DecidableEq, Repr

/-- `s.rstrip('/')`: drop all trailing slashes. -/
def rstripSlash (s : String) : String :=
  ⟨(s.data.reverse.dropWhile (· = '/')).reverse⟩

/-- `s.lstrip('/')`: drop all leading slashes. -/
def lstripSlash (s : String) : String :=
  ⟨s.data.dropWhile (· = '/')⟩

/-- `next_link.startswith("http")`, as a character-level prefix test. -/
def startsWithHttp (s : String) : Bool :=
  "http".toList.isPrefixOf s.data

/-- The next request URL computed from a `__next` link: used verbatim when
it starts with `"http"`, otherwise joined to the environment base URL as
`base.rstrip('/') + '/' + link.lstrip('/')`. -/
def resolve_next (base_url nextLink : String) : String :=
  if startsWithHttp nextLink then nextLink
  else rstripSlash base_url ++ "/" ++ lstripSlash nextLink

/-- The filter expression
`LogStart ge datetime'{start_str}' and LogEnd le datetime'{end_str}'`
with the window bounds in epoch seconds (timestamp rendering abstracted to
decimal). -/
def filter_str (start_s end_s : Nat) : String :=
  "LogStart ge datetime" ++ toString start_s ++ " and LogEnd le datetime" ++ toString end_s

/-- The initial request URL (`$format`, `$select`, `$filter`); the
percent-encoding `quote(...)` is abstracted since the URL serves only as
a request key. -/
def initial_url (base_url : String) (start_s end_s : Nat) : String :=
  base_url ++ "/MessageProcessingLogs?$format=json&$select=IntegrationFlowName,LogStart,LogEnd,MessageGuid,Status&$filter="
    ++ filter_str start_s end_s

/-- The `while next_url:` pagination loop.  `server` maps a request URL to
the response `requests.get` would obtain; `fuel` bounds the number of
iterations (the Python loop has no such bound, so every theorem about a
terminating run supplies enough fuel for its page chain).  A 200 response
appends its results and continues at the resolved `__next` link when one
is present; any other status (`break`) or an absent link ends the loop
with the results accumulated so far. -/
def fetch_loop (server : String → PageResponse) (base_url : String) :
    Nat → String → List RawRecord
  | 0, _ => []
  | fuel + 1, url =>
    match server url with
    | .failure _ _ => []
    | .success results none => results
    | .success results (some nl) =>
      results ++ fetch_loop server base_url fuel (resolve_next base_url nl)

/-! ## Report assembly -/

/-- The per-environment entry of `final_payload["environments"]`.  These
two fields are all the script ever writes for an environment: there is no
field recording whether the fetch was truncated by an HTTP failure. -/
structure EnvReport where
  Top5IflowsByDuration : List DurationRecord
  TotalMessagesProcessed : Nat
deriving DecidableEq, Repr

/-- `final_payload`: the 24-hour `timestamp_range` (epoch seconds) and the
per-environment entries in insertion order. -/
structure Report where
  timestamp_start : Nat
  timestamp_end : Nat
  environments : List (String × EnvReport)
deriving DecidableEq, Repr

/-- The environment's report entry built from its fetched records: the
top-5 ranking and the raw record count `len(all_results)`. -/
def env_report (all_results : List RawRecord) : EnvReport :=
  { Top5IflowsByDuration := env_top5 all_results
    TotalMessagesProcessed := all_results.length }

/-- The whole per-environment body of the main loop: fetch all pages from
the initial URL, then fill the environment's report entry. -/
def process_env (server : String → PageResponse) (base_url : String)
    (fuel : Nat) (start_s end_s : Nat) : EnvReport :=
  env_report (fetch_loop server base_url fuel (initial_url base_url start_s end_s))

/-- The script body after the configuration guard: compute the window,
process DEV, UAT and PROD in order, and assemble `final_payload`. -/
def build_report (getenv : String → Option String)
    (server : String → PageResponse) (fuel : Nat) (now_us : Nat) : Report :=
  let start_s := start_sec now_us
  let end_s := end_sec now_us
  let base := fun env => (getenv (env ++ "_SAP_BASE_URL")).getD ""
  { timestamp_start := start_s
    timestamp_end := end_s
    environments :=
      [("DEV", process_env server (base "DEV") fuel start_s end_s),
       ("UAT", process_env server (base "UAT") fuel start_s end_s),
       ("PROD", process_env server (base "PROD") fuel start_s end_s)] }

/-- The full script: the `RuntimeError` on missing configuration is the
`Except.error` case, raised before any request is issued; otherwise the
report that the final POST serializes is produced. -/
def run_script (getenv : String → Option String)
    (server : String → PageResponse) (fuel : Nat) (now_us : Nat) :
    Except String Report :=
  if config_ok getenv then
    .ok (build_report getenv server fuel now_us)
  else
    .error "One or more required environment variables are missing."

/-! ## Specification-side notions used to state the claims -/

/-- The records of one flow that take part in its ranking slot: status is
not `RETRY` and the flow name matches. -/
def flowFilter (name : String) (r : DurationRecord) : Bool :=
  !(r.Status == "RETRY") && (r.IntegrationFlowName == name)

/-- The per-flow update restricted to a single dict key: `none → some r`,
and an existing value is replaced only on strictly larger duration.  This
is the projection of `maxDurStep` onto one key. -/
def step1 (acc : Option DurationRecord) (r : DurationRecord) : Option DurationRecord :=
  match acc with
  | none => some r
  | some cur => if r.DurationMs > cur.DurationMs then some r else some cur

/-- A successful pagination run: from `url`, each page answers 200 with
its results list, the `__next` link leads to the next page, and the last
page carries no `__next` link. -/
inductive FetchChain (server : String → PageResponse) (base_url : String) :
    String → List (List RawRecord) → Prop where
  | last {url rs} : server url = .success rs none → FetchChain server base_url url [rs]
  | step {url rs nl pages} : server url = .success rs (some nl) →
      FetchChain server base_url (resolve_next base_url nl) pages →
      FetchChain server base_url url (rs :: pages)

/-- A pagination run truncated by an HTTP failure: zero or more successful
pages, each pointing at the next, then a non-200 response. -/
inductive FetchChainFail (server : String → PageResponse) (base_url : String) :
    String → List (List RawRecord) → Prop where
  | fail {url code body} : server url = .failure code body →
      FetchChainFail server base_url url []
  | step {url rs nl pages} : server url = .success rs (some nl) →
      FetchChainFail server base_url (resolve_next base_url nl) pages →
      FetchChainFail server base_url url (rs :: pages)

/-- The record-selection predicate denoted by the filter expression
`LogStart ge datetime'{start_str}' and LogEnd le datetime'{end_str}'`:
the record's `LogStart` is at or after the window start AND its `LogEnd`
is at or before the window end. -/
def filter_selects (start_s end_s logStart logEnd : Int) : Bool :=
  decide (start_s ≤ logStart) && decide (logEnd ≤ end_s)

/-- Modelled from the spec: a record whose `[LogStart, LogEnd]` interval
*overlaps* the `[now-24h, now]` window — the selection criterion the spec
claims the filter implements. -/
def overlaps_window (start_s end_s logStart logEnd : Int) : Bool :=
  decide (logStart ≤ end_s) && decide (start_s ≤ logEnd)

/-! ## Concrete fixtures used by the evaluation witnesses -/

/-- Seven distinct flows whose parsed durations are
[500, 100, 900, 300, 700, 200, 50] milliseconds. -/
def ex7 : List RawRecord :=
  [⟨"F1", "/Date(0)/", "/Date(500)/", "g1", "COMPLETED"⟩,
   ⟨"F2", "/Date(0)/", "/Date(100)/", "g2", "COMPLETED"⟩,
   ⟨"F3", "/Date(0)/", "/Date(900)/", "g3", "COMPLETED"⟩,
   ⟨"F4", "/Date(0)/", "/Date(300)/", "g4", "COMPLETED"⟩,
   ⟨"F5", "/Date(0)/", "/Date(700)/", "g5", "COMPLETED"⟩,
   ⟨"F6", "/Date(0)/", "/Date(200)/", "g6", "COMPLETED"⟩,
   ⟨"F7", "/Date(0)/", "/Date(50)/", "g7", "COMPLETED"⟩]

/-- One flow where the highest-duration record is a RETRY (100 ms) and a
lower non-RETRY record (10 ms) exists. -/
def exRetry : List RawRecord :=
  [⟨"F", "/Date(0)/", "/Date(10)/", "g1", "COMPLETED"⟩,
   ⟨"F", "/Date(0)/", "/Date(100)/", "g2", "RETRY"⟩]

/-- A record whose `LogStart` token does not match `/Date\((\d+)\)/`. -/
def badRec : RawRecord := ⟨"F", "notadate", "/Date(5)/", "g", "COMPLETED"⟩

/-- Two non-RETRY records of the same flow tied at the maximal duration;
the first one in input order must be the chosen representative. -/
def exTieA : DurationRecord := ⟨"F", "g1", "COMPLETED", 100, 0, 100⟩

def exTieB : DurationRecord := ⟨"F", "g2", "COMPLETED", 100, 0, 100⟩

def rawA : RawRecord := ⟨"FA", "/Date(0)/", "/Date(40)/", "ga", "COMPLETED"⟩

def rawB : RawRecord := ⟨"FB", "/Date(0)/", "/Date(60)/", "gb", "COMPLETED"⟩

/-- A two-page upstream: the first page points at a second page, which is
the last. -/
def serverOk : String → PageResponse := fun url =>
  if url = initial_url "http://sap" 0 86400 then
    .success [rawA] (some "http://sap/MessageProcessingLogs?page=2")
  else if url = "http://sap/MessageProcessingLogs?page=2" then
    .success [rawB] none
  else
    .failure 404 "not found"

/-- An upstream whose second page fails with HTTP 500. -/
def serverFail : String → PageResponse := fun url =>
  if url = initial_url "http://sap" 0 86400 then
    .success [rawA] (some "http://sap/MessageProcessingLogs?page=2")
  else
    .failure 500 "internal error"

/-! # Lemmas about the association list modelling the `max_durations` dict -/

theorem lookupKey_updateAssoc_self (m : List (String × DurationRecord))
    (name : String) (v : DurationRecord) :
    lookupKey name (updateAssoc m name v) = some v := by
  induction m with
  | nil => simp [updateAssoc, lookupKey]
  | cons p rest ih =>
    obtain ⟨k, w⟩ := p
    by_cases h : k = name
    · simp [updateAssoc, h, lookupKey]
    · simp [updateAssoc, h, lookupKey, ih]

theorem lookupKey_updateAssoc_ne (m : List (String × DurationRecord))
    {name k' : String} (v : DurationRecord) (h : k' ≠ name) :
    lookupKey k' (updateAssoc m name v) = lookupKey k' m := by
  induction m with
  | nil => simp [updateAssoc, lookupKey, Ne.symm h]
  | cons p rest ih =>
    obtain ⟨k, w⟩ := p
    by_cases hk : k = name
    · subst hk
      simp [updateAssoc, lookupKey, Ne.symm h]
    · simp [updateAssoc, hk, lookupKey, ih]

theorem mem_updateAssoc {m : List (String × DurationRecord)}
    {name : String} {v : DurationRecord} {p : String × DurationRecord}
    (hp : p ∈ updateAssoc m name v) : p ∈ m ∨ p = (name, v) := by
  induction m with
  | nil => simpa [updateAssoc] using hp
  | cons q rest ih =>
    obtain ⟨k, w⟩ := q
    by_cases hk : k = name
    · subst hk
      rcases (by simpa [updateAssoc] using hp : p = (k, v) ∨ p ∈ rest) with h | h
      · exact Or.inr h
      · exact Or.inl (List.mem_cons_of_mem _ h)
    · rcases (by simpa [updateAssoc, hk] using hp : p = (k, w) ∨ p ∈ updateAssoc rest name v) with h | h
      · exact Or.inl (by simp [h])
      · rcases ih h with h' | h'
        · exact Or.inl (List.mem_cons_of_mem _ h')
        · exact Or.inr h'

theorem lookupKey_eq_none_iff (m : List (String × DurationRecord)) (name : String) :
    lookupKey name m = none ↔ name ∉ m.map Prod.fst := by
  induction m with
  | nil => simp [lookupKey]
  | cons p rest ih =>
    obtain ⟨k, w⟩ := p
    by_cases h : k = name
    · simp [lookupKey, h]
    · simp [lookupKey, h, ih, Ne.symm h]

theorem map_fst_updateAssoc_not_mem (m : List (String × DurationRecord))
    {name : String} (v : DurationRecord) (h : lookupKey name m = none) :
    (updateAssoc m name v).map Prod.fst = m.map Prod.fst ++ [name] := by
  induction m with
  | nil => simp [updateAssoc]
  | cons p rest ih =>
    obtain ⟨k, w⟩ := p
    by_cases hk : k = name
    · simp [lookupKey, hk] at h
    · simp [lookupKey, hk] at h
      simp [updateAssoc, hk, ih h]

theorem map_fst_updateAssoc_mem (m : List (String × DurationRecord))
    {name : String} (v : DurationRecord) {cur : DurationRecord}
    (h : lookupKey name m = some cur) :
    (updateAssoc m name v).map Prod.fst = m.map Prod.fst := by
  induction m with
  | nil => simp [lookupKey] at h
  | cons p rest ih =>
    obtain ⟨k, w⟩ := p
    by_cases hk : k = name
    · simp [updateAssoc, hk]
    · simp [lookupKey, hk] at h
      simp [updateAssoc, hk, ih h]

theorem nodup_map_fst_updateAssoc {m : List (String × DurationRecord)}
    (name : String) (v : DurationRecord)
    (h : (m.map Prod.fst).Nodup) :
    ((updateAssoc m name v).map Prod.fst).Nodup := by
  cases hl : lookupKey name m with
  | none =>
    rw [map_fst_updateAssoc_not_mem m v hl]
    have hnm : name ∉ m.map Prod.fst := (lookupKey_eq_none_iff m name).mp hl
    rw [List.nodup_append]
    refine ⟨h, List.nodup_singleton name, ?_⟩
    intro x hx hx1
    rw [List.mem_singleton.mp hx1] at hx
    exact hnm hx
  | some cur =>
    rw [map_fst_updateAssoc_mem m v hl]
    exact h

theorem mem_of_lookupKey {m : List (String × DurationRecord)}
    {name : String} {v : DurationRecord} (h : lookupKey name m = some v) :
    (name, v) ∈ m := by
  induction m with
  | nil => simp [lookupKey] at h
  | cons p rest ih =>
    obtain ⟨k, w⟩ := p
    by_cases hk : k = name
    · subst hk
      simp [lookupKey] at h
      simp [h]
    · simp [lookupKey, hk] at h
      exact List.mem_cons_of_mem _ (ih h)

theorem lookupKey_of_mem {m : List (String × DurationRecord)}
    {name : String} {v : DurationRecord}
    (hnd : (m.map Prod.fst).Nodup) (h : (name, v) ∈ m) :
    lookupKey name m = some v := by
  induction m with
  | nil => simp at h
  | cons p rest ih =>
    obtain ⟨k, w⟩ := p
    rw [List.map_cons] at hnd
    obtain ⟨hk_not, hnd'⟩ := List.nodup_cons.mp hnd
    rcases List.mem_cons.mp h with h' | h'
    · injection h' with hk hv
      subst hk
      subst hv
      simp [lookupKey]
    · by_cases hk : k = name
      · exact absurd (List.mem_map_of_mem Prod.fst h') (hk ▸ hk_not)
      · simp [lookupKey, hk, ih hnd' h']

/-! # Projecting the `max_durations` loop onto a single flow name -/

theorem lookupKey_maxDurStep_self (m : List (String × DurationRecord))
    (r : DurationRecord) (hret : ¬r.Status = "RETRY") :
    lookupKey r.IntegrationFlowName (maxDurStep m r) =
      step1 (lookupKey r.IntegrationFlowName m) r := by
  unfold maxDurStep
  rw [if_neg hret]
  cases hl : lookupKey r.IntegrationFlowName m with
  | none => simp [step1, lookupKey_updateAssoc_self]
  | some cur =>
    by_cases hgt : r.DurationMs > cur.DurationMs
    · simp [hgt, step1, lookupKey_updateAssoc_self]
    · simp [hgt, step1, hl]

theorem lookupKey_maxDurStep_ne (m : List (String × DurationRecord))
    (r : DurationRecord) {name : String} (hname : r.IntegrationFlowName ≠ name) :
    lookupKey name (maxDurStep m r) = lookupKey name m := by
  unfold maxDurStep
  by_cases hret : r.Status = "RETRY"
  · rw [if_pos hret]
  · rw [if_neg hret]
    cases lookupKey r.IntegrationFlowName m with
    | none => exact lookupKey_updateAssoc_ne m r (Ne.symm hname)
    | some cur =>
      by_cases hgt : r.DurationMs > cur.DurationMs
      · simpa [hgt] using lookupKey_updateAssoc_ne m r (Ne.symm hname)
      · simp [hgt]

theorem lookupKey_foldl_maxDurStep (recs : List DurationRecord) :
    ∀ (m : List (String × DurationRecord)) (name : String),
      lookupKey name (recs.foldl maxDurStep m) =
        (recs.filter (flowFilter name)).foldl step1 (lookupKey name m) := by
  induction recs with
  | nil => intro m name; rfl
  | cons r rest ih =>
    intro m name
    by_cases hret : r.Status = "RETRY"
    · have hf : flowFilter name r = false := by
        simp [flowFilter, hret]
      have hstep : maxDurStep m r = m := by
        unfold maxDurStep
        rw [if_pos hret]
      rw [List.foldl_cons, List.filter_cons_of_neg (by simp [hf]), hstep]
      exact ih m name
    · by_cases hname : r.IntegrationFlowName = name
      · have hf : flowFilter name r = true := by
          simp [flowFilter, hret, hname]
        rw [List.foldl_cons, List.filter_cons_of_pos hf, List.foldl_cons]
        rw [ih (maxDurStep m r) name, ← hname,
          lookupKey_maxDurStep_self m r hret, hname]
      · have hf : flowFilter name r = false := by
          simp [flowFilter, hname]
        rw [List.foldl_cons, List.filter_cons_of_neg (by simp [hf])]
        rw [ih (maxDurStep m r) name, lookupKey_maxDurStep_ne m r hname]

/-- The dict lookup for a flow name equals the single-key fold over that
flow's non-RETRY records, in input order. -/
theorem max_durations_lookup (recs : List DurationRecord) (name : String) :
    lookupKey name (max_durations recs) =
      (recs.filter (flowFilter name)).foldl step1 none := by
  have h := lookupKey_foldl_maxDurStep recs [] name
  simpa [max_durations, lookupKey] using h

/-! # The single-key fold keeps the earliest maximum -/

theorem step1_foldl_some (l : List DurationRecord) :
    ∀ c : DurationRecord,
      ∃ r l1 l2, l.foldl step1 (some c) = some r ∧
        c :: l = l1 ++ r :: l2 ∧
        (∀ x ∈ l1, x.DurationMs < r.DurationMs) ∧
        (∀ x ∈ c :: l, x.DurationMs ≤ r.DurationMs) := by
  induction l with
  | nil =>
    intro c
    exact ⟨c, [], [], rfl, rfl, by simp, by simp⟩
  | cons a l ih =>
    intro c
    by_cases hgt : a.DurationMs > c.DurationMs
    · obtain ⟨r, l1, l2, hfold, hsplit, hlt, hle⟩ := ih a
      have har : a.DurationMs ≤ r.DurationMs := hle a (List.mem_cons_self a l)
      refine ⟨r, c :: l1, l2, ?_, ?_, ?_, ?_⟩
      · rw [List.foldl_cons]
        simpa [step1, hgt] using hfold
      · rw [List.cons_append]
        exact congrArg (c :: ·) hsplit
      · intro x hx
        rcases List.mem_cons.mp hx with hx | hx
        · exact hx ▸ lt_of_lt_of_le hgt har
        · exact hlt x hx
      · intro x hx
        rcases List.mem_cons.mp hx with hx | hx
        · exact hx ▸ le_of_lt (lt_of_lt_of_le hgt har)
        · exact hle x hx
    · obtain ⟨r, l1, l2, hfold, hsplit, hlt, hle⟩ := ih c
      have hac : a.DurationMs ≤ c.DurationMs := le_of_not_lt hgt
      have hfold' : (a :: l).foldl step1 (some c) = some r := by
        rw [List.foldl_cons]
        simpa [step1, hgt] using hfold
      cases l1 with
      | nil =>
        have hr : r = c := by
          have := hsplit
          rw [List.nil_append] at this
          exact (List.cons.injEq c l r l2 ▸ this).1.symm
        subst hr
        refine ⟨r, [], a :: l, hfold', rfl, by simp, ?_⟩
        intro x hx
        rcases List.mem_cons.mp hx with hx | hx
        · exact hx ▸ le_refl _
        · rcases List.mem_cons.mp hx with hx | hx
          · exact hx ▸ hac
          · exact hle x (List.mem_cons_of_mem _ hx)
      | cons q l1' =>
        have hq : q = c ∧ l = l1' ++ r :: l2 := by
          have := hsplit
          rw [List.cons_append] at this
          exact ⟨((List.cons.injEq c l q (l1' ++ r :: l2)) ▸ this).1.symm,
                 ((List.cons.injEq c l q (l1' ++ r :: l2)) ▸ this).2⟩
        obtain ⟨hqc, hl⟩ := hq
        subst hqc
        have hcr : q.DurationMs < r.DurationMs := hlt q (List.mem_cons_self q l1')
        refine ⟨r, q :: a :: l1', l2, hfold', ?_, ?_, ?_⟩
        · rw [List.cons_append, List.cons_append, hl]
        · intro x hx
          rcases List.mem_cons.mp hx with hx | hx
          · exact hx ▸ hcr
          · rcases List.mem_cons.mp hx with hx | hx
            · exact hx ▸ lt_of_le_of_lt hac hcr
            · exact hlt x (List.mem_cons_of_mem q hx)
        · intro x hx
          rcases List.mem_cons.mp hx with hx | hx
          · exact hx ▸ le_of_lt hcr
          · rcases List.mem_cons.mp hx with hx | hx
            · exact hx ▸ le_of_lt (lt_of_le_of_lt hac hcr)
            · exact hle x (List.mem_cons_of_mem q hx)

/-- A nonempty single-key fold from `none` yields the earliest record of
maximal duration: all records strictly before it in input order have
strictly smaller duration, and no record exceeds it. -/
theorem step1_foldl_none (l : List DurationRecord) (hne : l ≠ []) :
    ∃ r l1 l2, l.foldl step1 none = some r ∧
      l = l1 ++ r :: l2 ∧
      (∀ x ∈ l1, x.DurationMs < r.DurationMs) ∧
      (∀ x ∈ l, x.DurationMs ≤ r.DurationMs) := by
  cases l with
  | nil => exact absurd rfl hne
  | cons a l =>
    obtain ⟨r, l1, l2, hfold, hsplit, hlt, hle⟩ := step1_foldl_some l a
    exact ⟨r, l1, l2, by simpa [step1] using hfold, hsplit, hlt, hle⟩

/-! # Structural invariants of the `max_durations` dict -/

theorem maxDurStep_eq_retry {m : List (String × DurationRecord)}
    {r : DurationRecord} (hret : r.Status = "RETRY") : maxDurStep m r = m := by
  unfold maxDurStep
  rw [if_pos hret]

theorem maxDurStep_eq_new {m : List (String × DurationRecord)}
    {r : DurationRecord} (hret : ¬r.Status = "RETRY")
    (hl : lookupKey r.IntegrationFlowName m = none) :
    maxDurStep m r = updateAssoc m r.IntegrationFlowName r := by
  unfold maxDurStep
  rw [if_neg hret, hl]

theorem maxDurStep_eq_gt {m : List (String × DurationRecord)}
    {r cur : DurationRecord} (hret : ¬r.Status = "RETRY")
    (hl : lookupKey r.IntegrationFlowName m = some cur)
    (hgt : r.DurationMs > cur.DurationMs) :
    maxDurStep m r = updateAssoc m r.IntegrationFlowName r := by
  unfold maxDurStep
  rw [if_neg hret, hl]
  exact if_pos hgt

theorem maxDurStep_eq_keep {m : List (String × DurationRecord)}
    {r cur : DurationRecord} (hret : ¬r.Status = "RETRY")
    (hl : lookupKey r.IntegrationFlowName m = some cur)
    (hgt : ¬r.DurationMs > cur.DurationMs) :
    maxDurStep m r = m := by
  unfold maxDurStep
  rw [if_neg hret, hl]
  exact if_neg hgt

theorem mem_maxDurStep {m : List (String × DurationRecord)} {r : DurationRecord}
    {p : String × DurationRecord} (hp : p ∈ maxDurStep m r) :
    p ∈ m ∨ (p = (r.IntegrationFlowName, r) ∧ ¬r.Status = "RETRY") := by
  by_cases hret : r.Status = "RETRY"
  · rw [maxDurStep_eq_retry hret] at hp
    exact Or.inl hp
  · cases hl : lookupKey r.IntegrationFlowName m with
    | none =>
      rw [maxDurStep_eq_new hret hl] at hp
      rcases mem_updateAssoc hp with h | h
      · exact Or.inl h
      · exact Or.inr ⟨h, hret⟩
    | some cur =>
      by_cases hgt : r.DurationMs > cur.DurationMs
      · rw [maxDurStep_eq_gt hret hl hgt] at hp
        rcases mem_updateAssoc hp with h | h
        · exact Or.inl h
        · exact Or.inr ⟨h, hret⟩
      · rw [maxDurStep_eq_keep hret hl hgt] at hp
        exact Or.inl hp

theorem mem_foldl_maxDurStep (recs : List DurationRecord) :
    ∀ (m : List (String × DurationRecord)) (p : String × DurationRecord),
      p ∈ recs.foldl maxDurStep m →
      p ∈ m ∨ (p.2.IntegrationFlowName = p.1 ∧ ¬p.2.Status = "RETRY" ∧ p.2 ∈ recs) := by
  induction recs with
  | nil =>
    intro m p hp
    exact Or.inl hp
  | cons r rest ih =>
    intro m p hp
    rw [List.foldl_cons] at hp
    rcases ih (maxDurStep m r) p hp with h | h
    · rcases mem_maxDurStep h with h' | h'
      · exact Or.inl h'
      · obtain ⟨hpe, hret⟩ := h'
        subst hpe
        exact Or.inr ⟨rfl, hret, List.mem_cons_self r rest⟩
    · exact Or.inr ⟨h.1, h.2.1, List.mem_cons_of_mem r h.2.2⟩

/-- Every entry of `max_durations` is keyed by its record's flow name, its
record is not a `RETRY`, and its record comes from the input list. -/
theorem mem_max_durations {recs : List DurationRecord}
    {p : String × DurationRecord} (hp : p ∈ max_durations recs) :
    p.2.IntegrationFlowName = p.1 ∧ ¬p.2.Status = "RETRY" ∧ p.2 ∈ recs := by
  rcases mem_foldl_maxDurStep recs [] p hp with h | h
  · simp at h
  · exact h

theorem nodup_keys_maxDurStep {m : List (String × DurationRecord)}
    (r : DurationRecord) (h : (m.map Prod.fst).Nodup) :
    ((maxDurStep m r).map Prod.fst).Nodup := by
  by_cases hret : r.Status = "RETRY"
  · rw [maxDurStep_eq_retry hret]
    exact h
  · cases hl : lookupKey r.IntegrationFlowName m with
    | none =>
      rw [maxDurStep_eq_new hret hl]
      exact nodup_map_fst_updateAssoc _ _ h
    | some cur =>
      by_cases hgt : r.DurationMs > cur.DurationMs
      · rw [maxDurStep_eq_gt hret hl hgt]
        exact nodup_map_fst_updateAssoc _ _ h
      · rw [maxDurStep_eq_keep hret hl hgt]
        exact h

theorem nodup_keys_foldl_maxDurStep (recs : List DurationRecord) :
    ∀ m : List (String × DurationRecord),
      (m.map Prod.fst).Nodup → (((recs.foldl maxDurStep m)).map Prod.fst).Nodup := by
  induction recs with
  | nil =>
    intro m h
    exact h
  | cons r rest ih =>
    intro m h
    rw [List.foldl_cons]
    exact ih (maxDurStep m r) (nodup_keys_maxDurStep r h)

/-- The keys of `max_durations` are distinct (it is a dict). -/
theorem nodup_keys_max_durations (recs : List DurationRecord) :
    ((max_durations recs).map Prod.fst).Nodup :=
  nodup_keys_foldl_maxDurStep recs [] (by simp)

/-- The flow names of the values of `max_durations` are its keys. -/
theorem map_name_max_durations (recs : List DurationRecord) :
    ((max_durations recs).map Prod.snd).map (fun r => r.IntegrationFlowName) =
      (max_durations recs).map Prod.fst := by
  rw [List.map_map]
  exact List.map_congr_left (fun p hp => (mem_max_durations hp).1)

/-- Every record of the final ranking is a value of `max_durations`. -/
theorem mem_of_mem_top_5 {recs : List DurationRecord} {v : DurationRecord}
    (hv : v ∈ top_5 recs) : v ∈ (max_durations recs).map Prod.snd := by
  have h1 : v ∈ sortDescByDuration ((max_durations recs).map Prod.snd) :=
    List.take_subset 5 _ hv
  exact (List.perm_insertionSort descDur _).mem_iff.mp h1

/-! # Claims -/

/-- C1: for every environment's fetched record list, `Top5IflowsByDuration`
contains at most 5 entries, no two entries share an `IntegrationFlowName`,
and each entry is one of that flow's parsed non-RETRY records carrying the
maximum `DurationMs` among them. -/
theorem C1_top5_invariants (all_results : List RawRecord) :
    (env_top5 all_results).length ≤ 5 ∧
    ((env_top5 all_results).map (fun r => r.IntegrationFlowName)).Nodup ∧
    ∀ v ∈ env_top5 all_results,
      v ∈ (duration_records all_results).filter (flowFilter v.IntegrationFlowName) ∧
      ∀ x ∈ (duration_records all_results).filter (flowFilter v.IntegrationFlowName),
        x.DurationMs ≤ v.DurationMs := by
  refine ⟨?_, ?_, ?_⟩
  · unfold env_top5 top_5
    rw [List.length_take]
    exact min_le_left 5 _
  · unfold env_top5 top_5
    have hperm :
        ((sortDescByDuration ((max_durations (duration_records all_results)).map Prod.snd)).map
            (fun r => r.IntegrationFlowName)).Perm
          (((max_durations (duration_records all_results)).map Prod.snd).map
            (fun r => r.IntegrationFlowName)) :=
      (List.perm_insertionSort descDur _).map _
    have hnd :
        (((max_durations (duration_records all_results)).map Prod.snd).map
          (fun r => r.IntegrationFlowName)).Nodup := by
      rw [map_name_max_durations]
      exact nodup_keys_max_durations _
    have hnd2 :
        ((sortDescByDuration ((max_durations (duration_records all_results)).map Prod.snd)).map
          (fun r => r.IntegrationFlowName)).Nodup := hperm.nodup_iff.mpr hnd
    rw [List.map_take]
    exact hnd2.sublist (List.take_sublist 5 _)
  · intro v hv
    obtain ⟨⟨k, w⟩, hpmem, hpv⟩ := List.mem_map.mp (mem_of_mem_top_5 hv)
    dsimp at hpv
    subst hpv
    obtain ⟨hname, hret, hmem⟩ := mem_max_durations hpmem
    dsimp at hname
    have hlk : lookupKey k (max_durations (duration_records all_results)) = some w :=
      lookupKey_of_mem (nodup_keys_max_durations _) hpmem
    rw [← hname] at hlk
    rw [max_durations_lookup] at hlk
    have hne :
        (duration_records all_results).filter (flowFilter w.IntegrationFlowName) ≠ [] := by
      intro h0
      rw [h0] at hlk
      simp at hlk
    obtain ⟨r, l1, l2, hfold, hsplit, hlt, hle⟩ := step1_foldl_none _ hne
    rw [hfold] at hlk
    injection hlk with hlk
    subst hlk
    refine ⟨?_, hle⟩
    rw [hsplit]
    exact List.mem_append_right l1 (List.mem_cons_self _ l2)

theorem C1_top5_invariants_witness :
    (⟨"F3", "g3", "COMPLETED", 900, 0, 900⟩ : DurationRecord) ∈
      (duration_records ex7).filter
        (flowFilter (⟨"F3", "g3", "COMPLETED", 900, 0, 900⟩ : DurationRecord).IntegrationFlowName) ∧
    ∀ x ∈ (duration_records ex7).filter
        (flowFilter (⟨"F3", "g3", "COMPLETED", 900, 0, 900⟩ : DurationRecord).IntegrationFlowName),
      x.DurationMs ≤ (⟨"F3", "g3", "COMPLETED", 900, 0, 900⟩ : DurationRecord).DurationMs :=
  (C1_top5_invariants ex7).2.2 ⟨"F3", "g3", "COMPLETED", 900, 0, 900⟩ (by decide)

/-- C2: a record with Status "RETRY" never appears in the ranking, and for
any flow that has at least one parsed non-RETRY record, it is the
highest-duration such record that occupies the flow's slot in
`max_durations` (and hence can enter the top-5). -/
theorem C2_retry_never_ranked :
    (∀ (all_results : List RawRecord), ∀ v ∈ env_top5 all_results, ¬v.Status = "RETRY") ∧
    (∀ (all_results : List RawRecord) (name : String),
      (duration_records all_results).filter (flowFilter name) ≠ [] →
      ∃ r, lookupKey name (max_durations (duration_records all_results)) = some r ∧
        r ∈ (duration_records all_results).filter (flowFilter name) ∧
        ∀ x ∈ (duration_records all_results).filter (flowFilter name),
          x.DurationMs ≤ r.DurationMs) := by
  constructor
  · intro all_results v hv
    obtain ⟨⟨k, w⟩, hpmem, hpv⟩ := List.mem_map.mp (mem_of_mem_top_5 hv)
    dsimp at hpv
    subst hpv
    exact (mem_max_durations hpmem).2.1
  · intro all_results name hne
    obtain ⟨r, l1, l2, hfold, hsplit, hlt, hle⟩ := step1_foldl_none _ hne
    refine ⟨r, ?_, ?_, hle⟩
    · rw [max_durations_lookup]
      exact hfold
    · rw [hsplit]
      exact List.mem_append_right l1 (List.mem_cons_self r l2)

theorem C2_retry_never_ranked_witness :
    ∃ r, lookupKey "F" (max_durations (duration_records exRetry)) = some r ∧
      r ∈ (duration_records exRetry).filter (flowFilter "F") ∧
      ∀ x ∈ (duration_records exRetry).filter (flowFilter "F"),
        x.DurationMs ≤ r.DurationMs :=
  C2_retry_never_ranked.2 exRetry "F" (by decide)

/-- C10: the record occupying a flow's slot in `max_durations` is the
*earliest* record (in fetched order) attaining that flow's maximal
non-RETRY duration: every record strictly before it among the flow's
non-RETRY records has strictly smaller duration (the update uses `>`),
and no such record exceeds it. -/
theorem C10_earliest_max_wins (recs : List DurationRecord) (name : String)
    (r : DurationRecord) (h : lookupKey name (max_durations recs) = some r) :
    ∃ l1 l2, recs.filter (flowFilter name) = l1 ++ r :: l2 ∧
      (∀ x ∈ l1, x.DurationMs < r.DurationMs) ∧
      (∀ x ∈ recs.filter (flowFilter name), x.DurationMs ≤ r.DurationMs) := by
  rw [max_durations_lookup] at h
  have hne : recs.filter (flowFilter name) ≠ [] := by
    intro h0
    rw [h0] at h
    simp at h
  obtain ⟨r', l1, l2, hfold, hsplit, hlt, hle⟩ := step1_foldl_none _ hne
  rw [hfold] at h
  injection h with h
  subst h
  exact ⟨l1, l2, hsplit, hlt, hle⟩

theorem C10_earliest_max_wins_witness :
    ∃ l1 l2, [exTieA, exTieB].filter (flowFilter "F") = l1 ++ exTieA :: l2 ∧
      (∀ x ∈ l1, x.DurationMs < exTieA.DurationMs) ∧
      (∀ x ∈ [exTieA, exTieB].filter (flowFilter "F"),
        x.DurationMs ≤ exTieA.DurationMs) :=
  C10_earliest_max_wins [exTieA, exTieB] "F" exTieA (by decide)

/-- C9: the ranking is sorted descending by `DurationMs`, and on seven
distinct flows with per-flow maxima [500, 100, 900, 300, 700, 200, 50]
the selected top five durations are [900, 700, 500, 300, 200] in that
order. -/
theorem C9_sorted_descending :
    (∀ all_results : List RawRecord, List.Sorted descDur (env_top5 all_results)) ∧
    (env_top5 ex7).map (fun r => r.DurationMs) = [900, 700, 500, 300, 200] := by
  constructor
  · intro all_results
    have hs : List.Sorted descDur
        (sortDescByDuration ((max_durations (duration_records all_results)).map Prod.snd)) :=
      List.sorted_insertionSort descDur _
    exact List.Pairwise.sublist (List.take_sublist 5 _) hs
  · decide

/-- C3: a fetched record whose `LogStart` or `LogEnd` token fails to parse
is dropped from duration computation and ranking, yet still counts toward
`TotalMessagesProcessed`, which is the raw fetched-record count. -/
theorem C3_unparseable_counted (l1 l2 : List RawRecord) (r : RawRecord)
    (h : parse_log_date r.LogStart = none ∨ parse_log_date r.LogEnd = none) :
    env_report (l1 ++ r :: l2) =
      { Top5IflowsByDuration := env_top5 (l1 ++ l2)
        TotalMessagesProcessed := (l1 ++ l2).length + 1 } := by
  have hmk : mkDurationRecord r = none := by
    unfold mkDurationRecord
    rcases h with h | h
    · rw [h]
    · rw [h]
      cases parse_log_date r.LogStart <;> rfl
  have hdr : duration_records (l1 ++ r :: l2) = duration_records (l1 ++ l2) := by
    simp [duration_records, hmk]
  have htop : env_top5 (l1 ++ r :: l2) = env_top5 (l1 ++ l2) := by
    unfold env_top5
    rw [hdr]
  have hlen : (l1 ++ r :: l2).length = (l1 ++ l2).length + 1 := by
    simp [List.length_append]
    omega
  unfold env_report
  rw [htop, hlen]

theorem C3_unparseable_counted_witness :
    env_report ([] ++ badRec :: []) =
      { Top5IflowsByDuration := env_top5 (([] : List RawRecord) ++ [])
        TotalMessagesProcessed := (([] : List RawRecord) ++ []).length + 1 } :=
  C3_unparseable_counted [] [] badRec (Or.inl (by decide))

/-- C4: over any successful page chain, the loop follows the `__next`
links for exactly as long as they are present and returns the
concatenation of all pages' results in fetch order. -/
theorem C4_pagination_concat {server : String → PageResponse}
    {base_url url : String} {pages : List (List RawRecord)}
    (hchain : FetchChain server base_url url pages) :
    ∀ fuel, pages.length ≤ fuel →
      fetch_loop server base_url fuel url = pages.flatten := by
  induction hchain with
  | @last url rs h =>
    intro fuel hfuel
    match fuel with
    | 0 => simp at hfuel
    | fuel + 1 =>
      have hj : fetch_loop server base_url (fuel + 1) url = rs := by
        unfold fetch_loop
        rw [h]
      rw [hj]
      simp
  | @step url rs nl ps hresp hrest ih =>
    intro fuel hfuel
    match fuel with
    | 0 => simp at hfuel
    | fuel + 1 =>
      have hj : fetch_loop server base_url (fuel + 1) url =
          rs ++ fetch_loop server base_url fuel (resolve_next base_url nl) := by
        simp only [fetch_loop]
        rw [hresp]
      rw [hj, ih fuel (by rw [List.length_cons] at hfuel; omega)]
      simp

set_option maxRecDepth 8192 in
theorem C4_pagination_concat_witness :
    fetch_loop serverOk "http://sap" 2 (initial_url "http://sap" 0 86400) =
      [rawA, rawB] := by
  have h2 : FetchChain serverOk "http://sap"
      (resolve_next "http://sap" "http://sap/MessageProcessingLogs?page=2") [[rawB]] :=
    FetchChain.last (by decide)
  have hchain : FetchChain serverOk "http://sap"
      (initial_url "http://sap" 0 86400) [[rawA], [rawB]] :=
    FetchChain.step (by decide) h2
  have h := C4_pagination_concat hchain 2 (by decide)
  simpa using h

/-- C8: when pagination hits a non-success HTTP status after some
successful pages, the loop for that environment stops and the run
continues: the environment report is the ordinary report built from the
pages accumulated so far (`EnvReport` has no field that could mark the
failure). -/
theorem C8_failure_partial {server : String → PageResponse} {base_url : String}
    {pages : List (List RawRecord)} {start_s end_s : Nat}
    (hchain : FetchChainFail server base_url (initial_url base_url start_s end_s) pages)
    (fuel : Nat) (hfuel : pages.length + 1 ≤ fuel) :
    process_env server base_url fuel start_s end_s = env_report pages.flatten := by
  suffices h : ∀ {url : String} {ps : List (List RawRecord)},
      FetchChainFail server base_url url ps →
      ∀ f, ps.length + 1 ≤ f → fetch_loop server base_url f url = ps.flatten by
    unfold process_env
    rw [h hchain fuel hfuel]
  intro url ps hc
  induction hc with
  | @fail u code body h0 =>
    intro f hf
    match f with
    | 0 => simp at hf
    | f + 1 =>
      have hj : fetch_loop server base_url (f + 1) u = [] := by
        unfold fetch_loop
        rw [h0]
      rw [hj]
      simp
  | @step u rs nl pg hresp hrest ih =>
    intro f hf
    match f with
    | 0 => simp at hf
    | f + 1 =>
      have hj : fetch_loop server base_url (f + 1) u =
          rs ++ fetch_loop server base_url f (resolve_next base_url nl) := by
        simp only [fetch_loop]
        rw [hresp]
      rw [hj, ih f (by rw [List.length_cons] at hf; omega)]
      simp

set_option maxRecDepth 8192 in
theorem C8_failure_partial_witness :
    process_env serverFail "http://sap" 2 0 86400 = env_report [rawA] := by
  have h2 : FetchChainFail serverFail "http://sap"
      (resolve_next "http://sap" "http://sap/MessageProcessingLogs?page=2") [] :=
    FetchChainFail.fail
      (by decide :
        serverFail (resolve_next "http://sap" "http://sap/MessageProcessingLogs?page=2") =
          PageResponse.failure 500 "internal error")
  have hchain : FetchChainFail serverFail "http://sap"
      (initial_url "http://sap" 0 86400) [[rawA]] :=
    FetchChainFail.step (by decide) h2
  have h := C8_failure_partial hchain 2 (by decide)
  simpa using h

/-- C6: when any required environment variable is absent or empty, the
script raises before doing any work: the outcome is the configuration
error for every possible upstream, so no HTTP call can influence (or be
caused by) the run. -/
theorem C6_config_fail_fast (getenv : String → Option String)
    (h : ∃ v ∈ required_envs getenv, truthy v = false) :
    ∀ (server : String → PageResponse) (fuel now_us : Nat),
      run_script getenv server fuel now_us =
        .error "One or more required environment variables are missing." := by
  intro server fuel now_us
  have hok : ¬config_ok getenv = true := by
    intro hc
    unfold config_ok at hc
    obtain ⟨v, hv, hfalse⟩ := h
    have := List.all_eq_true.mp hc v hv
    rw [hfalse] at this
    exact Bool.false_ne_true this
  unfold run_script
  rw [if_neg hok]

theorem C6_config_fail_fast_witness :
    run_script (fun _ => none) (fun _ => PageResponse.failure 500 "") 1 0 =
      .error "One or more required environment variables are missing." :=
  C6_config_fail_fast (fun _ => none) ⟨none, by decide⟩ _ 1 0

/-- C7: whenever the configuration check passes, the POSTed report has
exactly the environment keys DEV, UAT and PROD in that order, and its
`timestamp_range` spans exactly 24 hours (86400 seconds, the `strftime`
truncation to whole seconds affecting both endpoints identically). -/
theorem C7_report_shape (getenv : String → Option String)
    (server : String → PageResponse) (fuel now_us : Nat)
    (hnow : dayUs ≤ now_us) (hok : config_ok getenv = true) :
    ∃ rep, run_script getenv server fuel now_us = .ok rep ∧
      rep.environments.map Prod.fst = ["DEV", "UAT", "PROD"] ∧
      rep.timestamp_start + 86400 = rep.timestamp_end := by
  refine ⟨build_report getenv server fuel now_us, ?_, rfl, ?_⟩
  · unfold run_script
    rw [if_pos hok]
  · show start_sec now_us + 86400 = end_sec now_us
    unfold start_sec end_sec strftimeSec
    have hd : dayUs = 1000000 * 86400 := by norm_num [dayUs]
    have h1 : (now_us - dayUs) / 1000000 = now_us / 1000000 - 86400 := by
      rw [hd]
      exact Nat.sub_mul_div now_us 1000000 86400 (hd ▸ hnow)
    have h2 : 86400 ≤ now_us / 1000000 := by
      have h3 : dayUs / 1000000 ≤ now_us / 1000000 := Nat.div_le_div_right hnow
      have h4 : dayUs / 1000000 = 86400 := by norm_num [dayUs]
      rw [h4] at h3
      exact h3
    rw [h1]
    omega

theorem C7_report_shape_witness :
    ∃ rep, run_script (fun _ => some "x") (fun _ => PageResponse.failure 500 "") 1 dayUs =
        .ok rep ∧
      rep.environments.map Prod.fst = ["DEV", "UAT", "PROD"] ∧
      rep.timestamp_start + 86400 = rep.timestamp_end :=
  C7_report_shape (fun _ => some "x") (fun _ => PageResponse.failure 500 "") 1 dayUs
    (Nat.le_refl dayUs) (by decide)

/-- C5 counterexample: the window is [0, 100]; the record with
LogStart = -1 and LogEnd = 50 overlaps the window, yet the filter
expression `LogStart ge start and LogEnd le end` does not select it, so
the filter does not select "exactly the records whose interval overlaps
the window". -/
theorem C5_overlap_counterexample :
    overlaps_window 0 100 (-1) 50 = true ∧ filter_selects 0 100 (-1) 50 = false := by
  decide

/-- C5 (amended): the filter expression selects exactly the records
*contained* in the window — LogStart at or after the window start and
LogEnd at or before the window end — a strictly stronger condition than
overlap: every selected well-formed record overlaps the window, but not
conversely. -/
theorem C5_filter_is_containment (start_s end_s logStart logEnd : Int) :
    (filter_selects start_s end_s logStart logEnd = true ↔
      (start_s ≤ logStart ∧ logEnd ≤ end_s)) ∧
    (logStart ≤ logEnd → filter_selects start_s end_s logStart logEnd = true →
      overlaps_window start_s end_s logStart logEnd = true) := by
  constructor
  · unfold filter_selects
    rw [Bool.and_eq_true, decide_eq_true_iff, decide_eq_true_iff]
  · intro hwf hsel
    unfold filter_selects at hsel
    rw [Bool.and_eq_true, decide_eq_true_iff, decide_eq_true_iff] at hsel
    unfold overlaps_window
    rw [Bool.and_eq_true, decide_eq_true_iff, decide_eq_true_iff]
    exact ⟨le_trans hwf hsel.2, le_trans hsel.1 hwf⟩

theorem C5_filter_is_containment_witness :
    (filter_selects 0 100 5 50 = true ↔ ((0 : Int) ≤ 5 ∧ (50 : Int) ≤ 100)) ∧
    overlaps_window 0 100 5 50 = true :=
  ⟨(C5_filter_is_containment 0 100 5 50).1,
   (C5_filter_is_containment 0 100 5 50).2 (by decide) (by decide)⟩
